import Mathlib

/-!
Shallow embedding of the migration orchestrator in
`src/handlers/migrationsHandler.js` (class `MigrationsHandler`).

The handler drives an external umzug instance over a sequelize connection.
The collaborator state is embedded explicitly:

* a migration unit is a record with its `file` name and three behaviour
  flags saying whether its `up()` succeeds, whether the ledger append
  (`storage.logMigration`) after a successful `up()` succeeds, and whether
  its `down()` succeeds;
* the ledger (umzug's sequelize storage) is the list of applied file
  names, in application order;
* Modelled from the spec: the umzug collaborator itself is not part of
  this repository.  Its operations are embedded from the spec's Ledger
  and Unit contracts (spec sections 3, 6): `pending()` is the ordered
  complement of the ledger against all units, `up()` runs each pending
  unit in order and appends its record, stopping at the first failure
  (of the up operation or of the ledger append, in which case no record
  is written), `executed()` returns the ledger, `down({migrations})`
  runs `down()` then removes the record for each listed name in the
  given list order (the handler itself reverses the list at line 181
  when it wants most-recent-first order), `down()` with no argument
  reverts the most recently applied record, and `down({to: 0})`
  reverts all applied records most-recent-first.

Each public operation of the handler (`migrate`, `revert`, `reset`,
`list`) is translated line by line into a function from the collaborator
state to a result record carrying the returned value, whether the
promise rejected (`threw`), the final ledger, the reported log lines,
the names whose `up()` / successful `down()` ran, and whether
`this.sequelize.close()` was reached.
-/

namespace MigrationsHandler

/-- A migration unit as umzug hands it to the handler: its `file` name plus
the behaviour of its `up()`, of the ledger append following `up()`, and of
its `down()` on this run. -/
structure Migration where
  file : String
  upOk : Bool
  appendOk : Bool
  downOk : Bool
deriving DecidableEq

/-- The commit unit for one migration succeeds: `up()` succeeds and the
ledger append succeeds. -/
def goodUp (u : Migration) : Bool :=
  u.upOk && u.appendOk

/-- umzug `pending()`: units whose file name has no ledger record, in unit
order. -/
def pendingUnits (units : List Migration) (ledger : List String) : List Migration :=
  units.filter (fun u => decide (u.file ∉ ledger))

/-- The handler's `pendingMigrations` value (lines 86-88):
`pending().map(migration => migration.file)`. -/
def pendingNames (units : List Migration) (ledger : List String) : List String :=
  (pendingUnits units ledger).map (fun u => u.file)

/-- umzug `up()` over the pending units: run each unit's `up()` in order,
then append its ledger record; stop (the promise rejects) at the first
unit whose `up()` or ledger append fails, leaving no record for it.
Returns the ledger after the run, the names whose `up()` was invoked, and
whether the whole run succeeded. -/
def runUp : List Migration → List String → List String × List String × Bool
  | [], ledger => (ledger, [], true)
  | u :: rest, ledger =>
      if u.upOk && u.appendOk then
        let r := runUp rest (ledger ++ [u.file])
        (r.1, u.file :: r.2.1, r.2.2)
      else (ledger, [u.file], false)

/-- umzug `_findMigration`: look a unit up by file name. -/
def findUnit (units : List Migration) (n : String) : Option Migration :=
  units.find? (fun u => u.file == n)

/-- The named unit exists and its `down()` succeeds. -/
def downOkFor (units : List Migration) (n : String) : Bool :=
  match findUnit units n with
  | some u => u.downOk
  | none => false

/-- Every name in the list resolves to a unit whose `down()` succeeds. -/
def downsOk (units : List Migration) (names : List String) : Bool :=
  names.all (downOkFor units)

/-- umzug `down({migrations: names})`: for each listed name in list
order, run the unit's `down()` and remove its ledger record; the promise
rejects at the first name that cannot be found or whose `down()` throws,
keeping the removals already performed.  Returns the ledger, the names
successfully reverted (in execution order), and whether the run
succeeded. -/
def runDown (units : List Migration) : List String → List String → List String × List String × Bool
  | [], ledger => (ledger, [], true)
  | n :: rest, ledger =>
      match findUnit units n with
      | none => (ledger, [], false)
      | some u =>
          if u.downOk then
            let r := runDown units rest (ledger.erase n)
            (r.1, n :: r.2.1, r.2.2)
          else (ledger, [], false)

/-- The failure diagnosis `migrate` computes in its catch handler
(lines 110-126): the pending names confirmed by the re-queried ledger
(`executedFromPending`) and the name it reports as broken. -/
structure FailureReport where
  committedBeforeFailure : List String
  firstBrokenName : String
deriving DecidableEq

/-- Result of one `migrate` run: the returned boolean, whether the call
rejected instead of returning, the final ledger, the log lines reported,
the names whose `up()` was invoked, the names reverted by the auto-revert,
the failure diagnosis if one was computed, and whether
`this.sequelize.close()` (line 152) was reached. -/
structure MigrateResult where
  success : Bool
  threw : Bool
  ledger : List String
  log : List String
  upRun : List String
  reverted : List String
  report : Option FailureReport
  closed : Bool
deriving DecidableEq

/-- Handler method `migrate(revertError)` (lines 80-155), translated branch by branch.
The `.catch` handler (lines 106-146) computes `executedFromPending` from
the re-queried ledger and reports
`pendingMigrations[executedFromPending.length]` (or
`pendingMigrations[0]` when nothing committed; an out-of-range JS index
renders as `undefined`); with `revertError` it then runs
`umzug.down({migrations: executedFromPending})`, whose rejection
propagates out of `migrate` past the `close()` call. -/
def migrate (units : List Migration) (revertError : Bool) (ledger : List String) :
    MigrateResult :=
  let log0 := ["Looking for pending migrations..."]
  let pendingMigrations := pendingNames units ledger
  if pendingMigrations.length > 0 then
    let log1 := log0 ++ ["Applying pending migrations..."]
    let r := runUp (pendingUnits units ledger) ledger
    if r.2.2 then
      { success := true, threw := false, ledger := r.1,
        log := log1 ++ [toString pendingMigrations.length ++ " applied migrations"]
          ++ pendingMigrations.map (fun f => "=> " ++ f),
        upRun := r.2.1, reverted := [], report := none, closed := true }
    else
      let log2 := log1 ++ ["Error while applying migrations",
        "Looking for migration that has problems..."]
      let executedMigrations := r.1
      let executedFromPending :=
        pendingMigrations.filter (fun p => decide (p ∈ executedMigrations))
      if executedFromPending.length > 0 then
        let broken := pendingMigrations.getD executedFromPending.length "undefined"
        let log3 := log2 ++ ["Something wrong with " ++ broken]
        let rep : Option FailureReport := some ⟨executedFromPending, broken⟩
        if revertError then
          let log4 := log3 ++ ["Reverting applied migrations..."]
          let d := runDown units executedFromPending executedMigrations
          if d.2.2 then
            { success := false, threw := false, ledger := d.1,
              log := log4 ++ d.2.1.map (fun f => "=> reverted " ++ f),
              upRun := r.2.1, reverted := d.2.1, report := rep, closed := true }
          else
            { success := false, threw := true, ledger := d.1, log := log4,
              upRun := r.2.1, reverted := d.2.1, report := rep, closed := false }
        else
          { success := false, threw := false, ledger := executedMigrations,
            log := log3, upRun := r.2.1, reverted := [], report := rep,
            closed := true }
      else
        let broken := pendingMigrations.getD 0 "undefined"
        { success := false, threw := false, ledger := executedMigrations,
          log := log2 ++ ["Something wrong with " ++ broken],
          upRun := r.2.1, reverted := [],
          report := some ⟨executedFromPending, broken⟩, closed := true }
  else
    { success := true, threw := false, ledger := ledger,
      log := log0 ++ ["No pending migrations to apply"],
      upRun := [], reverted := [], report := none, closed := true }

/-- Result of a `revert`, `reset` or `list` call: whether it rejected, the
final ledger, the reported log lines, the names successfully reverted, and
whether `this.sequelize.close()` was reached. -/
structure OpResult where
  threw : Bool
  ledger : List String
  log : List String
  reverted : List String
  closed : Bool
deriving DecidableEq

/-- JS truthiness of the `name` argument: `!name` is true for both `null`
and the empty string. -/
def truthy : Option String → Bool
  | none => false
  | some s => s != ""

/-- Handler method `revert(times = 1, name = null)` (lines 157-208), translated branch by
branch: the `times < 1 && !name` guard throws before any other statement
(so before `close()`); a truthy `name` selects name mode; otherwise
`times > 1` selects count mode over the reversed ledger, and
`times === 1` reverts the most recent record via `umzug.down()`. -/
def revert (units : List Migration) (times : Int) (name : Option String)
    (ledger : List String) : OpResult :=
  if times < 1 ∧ truthy name = false then
    { threw := true, ledger := ledger, log := [], reverted := [], closed := false }
  else if truthy name = true then
    let n := name.getD ""
    let log1 := ["Trying to revert migration " ++ n]
    let d := runDown units [n] ledger
    if d.2.2 then
      { threw := false, ledger := d.1,
        log := log1 ++ [toString d.2.1.length ++ " reverted migrations"]
          ++ d.2.1.map (fun f => "=> " ++ f),
        reverted := d.2.1, closed := true }
    else
      { threw := true, ledger := d.1, log := log1, reverted := d.2.1, closed := false }
  else if truthy name = false ∧ 1 < times then
    let log1 := ["Trying to revert the last " ++ toString times ++ " migrations"]
    let rollbackMigrations := ledger.reverse.take times.toNat
    if rollbackMigrations.length > 0 then
      let d := runDown units rollbackMigrations ledger
      if d.2.2 then
        { threw := false, ledger := d.1,
          log := log1 ++ [toString d.2.1.length ++ " reverted migrations"]
            ++ d.2.1.map (fun f => "=> " ++ f),
          reverted := d.2.1, closed := true }
      else
        { threw := true, ledger := d.1, log := log1, reverted := d.2.1, closed := false }
    else
      { threw := false, ledger := ledger,
        log := log1 ++ ["There isn't migrations to revert"],
        reverted := [], closed := true }
  else if truthy name = false ∧ times = 1 then
    let log1 := ["Trying to revert the last migration"]
    match ledger.getLast? with
    | none =>
        { threw := false, ledger := ledger,
          log := log1 ++ ["0 reverted migrations"], reverted := [], closed := true }
    | some last =>
        let d := runDown units [last] ledger
        if d.2.2 then
          { threw := false, ledger := d.1,
            log := log1 ++ [toString d.2.1.length ++ " reverted migrations"]
              ++ d.2.1.map (fun f => "=> " ++ f),
            reverted := d.2.1, closed := true }
        else
          { threw := true, ledger := d.1, log := log1, reverted := d.2.1, closed := false }
  else
    { threw := false, ledger := ledger, log := [], reverted := [], closed := true }

/-- Handler method `reset()` (lines 210-225): `umzug.down({to: 0})` reverts every
applied record most-recent-first; a rejection propagates past `close()`. -/
def reset (units : List Migration) (ledger : List String) : OpResult :=
  let log1 := ["Trying to revert all migrations..."]
  let d := runDown units ledger.reverse ledger
  if d.2.2 then
    { threw := false, ledger := d.1,
      log := log1 ++ [toString d.2.1.length ++ " reverted migrations"]
        ++ d.2.1.map (fun f => "=> " ++ f),
      reverted := d.2.1, closed := true }
  else
    { threw := true, ledger := d.1, log := log1, reverted := d.2.1, closed := false }

/-- Handler method `list(status = "pending")` (lines 227-247): pure read; any status other
than `"executed"` lists the pending names. -/
def list (units : List Migration) (status : String) (ledger : List String) : OpResult :=
  let log1 := ["Searching for " ++ status ++ " migrations..."]
  if status == "executed" then
    { threw := false, ledger := ledger,
      log := log1 ++ [toString ledger.length ++ " executed migrations"]
        ++ ledger.map (fun f => "=> " ++ f),
      reverted := [], closed := true }
  else
    let p := pendingNames units ledger
    { threw := false, ledger := ledger,
      log := log1 ++ [toString p.length ++ " pending migrations"]
        ++ p.map (fun f => "=> " ++ f),
      reverted := [], closed := true }

/-! ### Structural lemmas about the collaborator operations -/

/-- Proof helper: file names of the longest leading run of units whose
commit unit succeeds. -/
def okTake : List Migration → List String
  | [] => []
  | u :: rest => if u.upOk && u.appendOk then u.file :: okTake rest else []

/-- Proof helper: file names from the first unit whose commit unit fails
onwards. -/
def okDrop : List Migration → List String
  | [] => []
  | u :: rest =>
      if u.upOk && u.appendOk then okDrop rest
      else u.file :: rest.map (fun v => v.file)

lemma okTake_append_okDrop (us : List Migration) :
    okTake us ++ okDrop us = us.map (fun u => u.file) := by
  induction us with
  | nil => rfl
  | cons u rest ih =>
      by_cases h : u.upOk && u.appendOk <;> simp [okTake, okDrop, h, ih]

lemma runUp_fst (us : List Migration) (l : List String) :
    (runUp us l).1 = l ++ okTake us := by
  induction us generalizing l with
  | nil => simp [runUp, okTake]
  | cons u rest ih =>
      by_cases h : u.upOk && u.appendOk
      · simp [runUp, okTake, h, ih]
      · simp [runUp, okTake, h]

lemma runUp_ok (us : List Migration) (l : List String) :
    (runUp us l).2.2 = us.all goodUp := by
  induction us generalizing l with
  | nil => simp [runUp]
  | cons u rest ih =>
      by_cases h : u.upOk && u.appendOk
      · simp [runUp, goodUp, h, ih]
      · simp [runUp, goodUp, h]

lemma okTake_of_all (us : List Migration) (h : us.all goodUp = true) :
    okTake us = us.map (fun u => u.file) := by
  induction us with
  | nil => rfl
  | cons u rest ih =>
      simp only [List.all_cons, Bool.and_eq_true] at h
      have hrest : rest.all goodUp = true := h.2
      have hg : (u.upOk && u.appendOk) = true := by
        simpa [goodUp] using h.1
      simp [okTake, hg, ih hrest]

lemma okDrop_ne_nil (us : List Migration) (h : us.all goodUp = false) :
    okDrop us ≠ [] := by
  induction us with
  | nil => simp at h
  | cons u rest ih =>
      by_cases hg : u.upOk && u.appendOk
      · simp only [List.all_cons] at h
        have : rest.all goodUp = false := by
          simpa [goodUp, hg] using h
        simpa [okDrop, hg] using ih this
      · simp [okDrop, hg]

lemma pendingNames_not_mem (units : List Migration) (ledger : List String) :
    ∀ p ∈ pendingNames units ledger, p ∉ ledger := by
  intro p hp
  simp only [pendingNames, pendingUnits, List.mem_map] at hp
  obtain ⟨u, hu, rfl⟩ := hp
  have h := List.mem_filter.mp hu
  simpa using h.2

lemma getD_append_cons (A : List String) (b : String) (bs : List String) (d : String) :
    (A ++ b :: bs).getD A.length d = b := by
  induction A with
  | nil => rfl
  | cons a A ih => simpa using ih

/-- The ledger-confirmed subset of `pendingNames` after a failed `up()`:
filtering `A ++ B` by membership in `ledger ++ A` recovers exactly `A`
when the names are distinct and none of them was in the prior ledger. -/
lemma filter_committed (A B ledger : List String) (hnd : (A ++ B).Nodup)
    (hdisj : ∀ p ∈ A ++ B, p ∉ ledger) :
    (A ++ B).filter (fun p => decide (p ∈ ledger ++ A)) = A := by
  have h1 : (A ++ B).filter (fun p => decide (p ∈ ledger ++ A))
      = (A ++ B).filter (fun p => decide (p ∈ A)) := by
    apply List.filter_congr
    intro p hp
    have hpl := hdisj p hp
    simp [List.mem_append, hpl]
  rw [h1, List.filter_append]
  have h2 : A.filter (fun p => decide (p ∈ A)) = A := by
    apply List.filter_eq_self.mpr
    intro p hp
    simpa using hp
  have h3 : B.filter (fun p => decide (p ∈ A)) = [] := by
    apply List.filter_eq_nil_iff.mpr
    intro p hp
    rcases List.nodup_append.mp hnd with ⟨-, -, hd⟩
    intro hpds
    exact hd (by simpa using hpds) hp
  rw [h2, h3, List.append_nil]

lemma runDown_of_ok (units : List Migration) (names : List String) :
    ∀ l, (runDown units names l).2.2 = true →
      (runDown units names l).2.1 = names ∧
      (runDown units names l).1 = names.foldl (fun acc n => acc.erase n) l := by
  induction names with
  | nil => intro l _; simp [runDown]
  | cons n rest ih =>
      intro l h
      cases hf : findUnit units n with
      | none => simp [runDown, hf] at h
      | some u =>
          by_cases hd : u.downOk
          · have h' : (runDown units rest (l.erase n)).2.2 = true := by
              simpa [runDown, hf, hd] using h
            obtain ⟨h1, h2⟩ := ih (l.erase n) h'
            simp [runDown, hf, hd, h1, h2]
          · simp [runDown, hf, hd] at h

lemma runDown_ok_of_downsOk (units : List Migration) (names : List String)
    (h : downsOk units names = true) :
    ∀ l, (runDown units names l).2.2 = true := by
  induction names with
  | nil => intro l; simp [runDown]
  | cons n rest ih =>
      intro l
      simp only [downsOk, List.all_cons, Bool.and_eq_true] at h
      cases hf : findUnit units n with
      | none => simp [downOkFor, hf] at h
      | some u =>
          have hd : u.downOk = true := by simpa [downOkFor, hf] using h.1
          have := ih (by simpa [downsOk] using h.2) (l.erase n)
          simp [runDown, hf, hd, this]

lemma foldl_erase_append (names : List String) :
    ∀ l, names.Nodup → (∀ n ∈ names, n ∉ l) →
      names.foldl (fun acc n => acc.erase n) (l ++ names) = l := by
  induction names with
  | nil => intro l _ _; simp
  | cons n rest ih =>
      intro l hnd hdisj
      have h1 : (l ++ n :: rest).erase n = l ++ rest := by
        rw [List.erase_append_right _ (hdisj n (by simp))]
        simp
      simp only [List.foldl_cons, h1]
      exact ih l (by simpa using hnd.of_cons) (fun m hm => hdisj m (by simp [hm]))

/-- After a failed `up()` run, filtering the pending names by the
re-queried ledger yields exactly the committed leading run, and the name
the handler indexes at its length is the pending name immediately
following it. -/
lemma committed_decomp (units : List Migration) (ledger : List String)
    (hnd : (pendingNames units ledger).Nodup)
    (hfail : (pendingUnits units ledger).all goodUp = false) :
    (pendingNames units ledger).filter
        (fun p => decide (p ∈ (runUp (pendingUnits units ledger) ledger).1))
      = okTake (pendingUnits units ledger) ∧
    ∃ bs, pendingNames units ledger
      = okTake (pendingUnits units ledger) ++
        (pendingNames units ledger).getD (okTake (pendingUnits units ledger)).length
          "undefined" :: bs := by
  have hPA : pendingNames units ledger
      = okTake (pendingUnits units ledger) ++ okDrop (pendingUnits units ledger) := by
    rw [okTake_append_okDrop]; rfl
  obtain ⟨b, bs, hbd⟩ : ∃ b bs, okDrop (pendingUnits units ledger) = b :: bs := by
    cases hd : okDrop (pendingUnits units ledger) with
    | nil => exact absurd hd (okDrop_ne_nil _ hfail)
    | cons b bs => exact ⟨b, bs, rfl⟩
  have hfil : (pendingNames units ledger).filter
      (fun p => decide (p ∈ (runUp (pendingUnits units ledger) ledger).1))
      = okTake (pendingUnits units ledger) := by
    rw [runUp_fst]
    conv_lhs => rw [hPA]
    exact filter_committed _ _ _ (hPA ▸ hnd)
      (fun p hp => pendingNames_not_mem units ledger p (by rw [hPA]; exact hp))
  refine ⟨hfil, bs, ?_⟩
  conv_lhs => rw [hPA, hbd]
  rw [hPA, hbd, getD_append_cons]

/-- Whenever `migrate` produces a failure report, its committed set is
the good leading run of the pending units and its broken name is the
pending name immediately following that run. -/
lemma migrate_report_spec (units : List Migration) (re : Bool) (ledger : List String)
    (rep : FailureReport) (hnd : (pendingNames units ledger).Nodup)
    (hrep : (migrate units re ledger).report = some rep) :
    rep.committedBeforeFailure = okTake (pendingUnits units ledger) ∧
    ∃ bs, pendingNames units ledger
      = rep.committedBeforeFailure ++ rep.firstBrokenName :: bs := by
  obtain ⟨rc, rb⟩ := rep
  simp only [migrate] at hrep
  split at hrep
  · split at hrep
    · simp at hrep
    · rename_i hup
      have hfail : (pendingUnits units ledger).all goodUp = false := by
        rw [runUp_ok] at hup
        simpa using hup
      obtain ⟨hfil, bs, hdec⟩ := committed_decomp units ledger hnd hfail
      split at hrep
      · rename_i hpos
        have hEq : rc = okTake (pendingUnits units ledger) ∧
            rb = (pendingNames units ledger).getD
              (okTake (pendingUnits units ledger)).length "undefined" := by
          split at hrep
          · split at hrep
            · simp only [Option.some.injEq, FailureReport.mk.injEq] at hrep
              exact ⟨by rw [← hrep.1, hfil], by rw [← hrep.2, hfil]⟩
            · simp only [Option.some.injEq, FailureReport.mk.injEq] at hrep
              exact ⟨by rw [← hrep.1, hfil], by rw [← hrep.2, hfil]⟩
          · simp only [Option.some.injEq, FailureReport.mk.injEq] at hrep
            exact ⟨by rw [← hrep.1, hfil], by rw [← hrep.2, hfil]⟩
        refine ⟨hEq.1, bs, ?_⟩
        simpa [hEq.1, hEq.2] using hdec
      · rename_i hpos
        have hE : okTake (pendingUnits units ledger) = [] := by
          apply List.length_eq_zero.mp
          rw [← hfil]
          omega
        simp only [Option.some.injEq, FailureReport.mk.injEq] at hrep
        refine ⟨by rw [← hrep.1, hfil], bs, ?_⟩
        rw [← hrep.1, ← hrep.2, hfil, hE, List.nil_append]
        simpa [hE] using hdec
  · simp at hrep

/-- With auto-revert enabled, a failing `migrate` run that does not
throw restores the ledger to its pre-run contents and reverts exactly
the names of its failure report. -/
lemma migrate_autorevert_spec (units : List Migration) (ledger : List String)
    (rep : FailureReport) (hnd : (pendingNames units ledger).Nodup)
    (ht : (migrate units true ledger).threw = false)
    (hrep : (migrate units true ledger).report = some rep) :
    (migrate units true ledger).ledger = ledger ∧
    (migrate units true ledger).reverted = rep.committedBeforeFailure := by
  obtain ⟨rc, rb⟩ := rep
  by_cases h1 : (pendingNames units ledger).length > 0
  · by_cases h2 : (runUp (pendingUnits units ledger) ledger).2.2 = true
    · simp [migrate, h1, h2] at hrep
    · have hnb : (runUp (pendingUnits units ledger) ledger).2.2 = false := by
        simpa using h2
      have hfail : (pendingUnits units ledger).all goodUp = false := by
        rw [runUp_ok] at hnb
        exact hnb
      obtain ⟨hfil, bs, hdec⟩ := committed_decomp units ledger hnd hfail
      have hPA : pendingNames units ledger
          = okTake (pendingUnits units ledger) ++ okDrop (pendingUnits units ledger) := by
        rw [okTake_append_okDrop]; rfl
      have hdisjA : ∀ n ∈ okTake (pendingUnits units ledger), n ∉ ledger := by
        intro n hn
        apply pendingNames_not_mem units ledger
        rw [hPA]
        exact List.mem_append_left _ hn
      have hndA : (okTake (pendingUnits units ledger)).Nodup := by
        have h := hPA ▸ hnd
        exact (List.nodup_append.mp h).1
      by_cases h3 : ((pendingNames units ledger).filter
          (fun p => decide (p ∈ (runUp (pendingUnits units ledger) ledger).1))).length > 0
      · by_cases h4 : (runDown units
            ((pendingNames units ledger).filter
              (fun p => decide (p ∈ (runUp (pendingUnits units ledger) ledger).1)))
            (runUp (pendingUnits units ledger) ledger).1).2.2 = true
        · obtain ⟨hrev, hled⟩ := runDown_of_ok units _ _ h4
          simp only [migrate, h1, hnb, h3, h4, if_true, if_false] at hrep ⊢
          simp only [Bool.false_eq_true, if_false, if_pos h1, if_pos h3, ite_true,
            Option.some.injEq, FailureReport.mk.injEq] at hrep ⊢
          refine ⟨?_, by rw [hrev, hrep.1]⟩
          rw [hled, hfil, runUp_fst]
          exact foldl_erase_append _ ledger hndA hdisjA
        · have hf : (runDown units
              ((pendingNames units ledger).filter
                (fun p => decide (p ∈ (runUp (pendingUnits units ledger) ledger).1)))
              (runUp (pendingUnits units ledger) ledger).1).2.2 = false := by
            simpa using h4
          simp [migrate, h1, hnb, h3, hf] at ht
      · have hE : okTake (pendingUnits units ledger) = [] := by
          apply List.length_eq_zero.mp
          rw [← hfil]
          omega
        simp only [migrate, h1, hnb, h3, if_true, if_false] at hrep ⊢
        simp only [Bool.false_eq_true, if_false, if_pos h1, if_neg h3,
          Option.some.injEq, FailureReport.mk.injEq] at hrep ⊢
        refine ⟨?_, by rw [← hrep.1, hfil, hE]⟩
        rw [runUp_fst, hE, List.append_nil]
  · simp [migrate, h1] at hrep

/-- A ledger covering every unit's file name leaves nothing pending. -/
lemma pendingNames_eq_nil (units : List Migration) (L : List String)
    (h : ∀ u ∈ units, u.file ∈ L) : pendingNames units L = [] := by
  simp only [pendingNames, pendingUnits]
  have hf : units.filter (fun u => decide (u.file ∉ L)) = [] := by
    apply List.filter_eq_nil_iff.mpr
    intro u hu
    simpa using h u hu
  rw [hf]
  rfl

/-- A `migrate` run that returns `success = true` leaves a ledger against
which no unit is pending. -/
lemma migrate_success_no_pending (units : List Migration) (re : Bool) (ledger : List String)
    (hs : (migrate units re ledger).success = true) :
    pendingNames units (migrate units re ledger).ledger = [] := by
  by_cases h1 : (pendingNames units ledger).length > 0
  · by_cases h2 : (runUp (pendingUnits units ledger) ledger).2.2 = true
    · have hall : (pendingUnits units ledger).all goodUp = true := by
        rw [runUp_ok] at h2
        exact h2
      have hled : (migrate units re ledger).ledger
          = ledger ++ (pendingUnits units ledger).map (fun u => u.file) := by
        simp [migrate, h1, h2, runUp_fst, okTake_of_all _ hall]
      rw [hled]
      apply pendingNames_eq_nil
      intro u hu
      by_cases hm : u.file ∈ ledger
      · exact List.mem_append_left _ hm
      · refine List.mem_append_right _ ?_
        exact List.mem_map.mpr ⟨u, List.mem_filter.mpr ⟨hu, by simpa using hm⟩, rfl⟩
    · have hnb : (runUp (pendingUnits units ledger) ledger).2.2 = false := by
        simpa using h2
      simp [migrate, h1, hnb, apply_ite MigrateResult.success] at hs
  · have hled : (migrate units re ledger).ledger = ledger := by
      simp [migrate, h1]
    rw [hled]
    have : (pendingNames units ledger).length = 0 := by omega
    exact List.length_eq_zero.mp this

/-- With nothing pending, `migrate` reports and returns without touching
anything. -/
lemma migrate_no_pending (units : List Migration) (re : Bool) (ledger : List String)
    (h : pendingNames units ledger = []) :
    migrate units re ledger =
      { success := true, threw := false, ledger := ledger,
        log := ["Looking for pending migrations...", "No pending migrations to apply"],
        upRun := [], reverted := [], report := none, closed := true } := by
  simp [migrate, h]

/-! ### Claim theorems -/

/-- C1: for every `migrate` run that fails and computes a failure report,
the name reported as broken (`firstBrokenName`) is the pending name
immediately following the last element of `committedBeforeFailure` in
`pendingNames`; when `committedBeforeFailure` is empty it is the first
pending name.  Both cases are captured by the decomposition below:
the pending names are exactly the committed names followed directly by
the reported broken name. -/
theorem migrate_firstBroken_follows_committed (units : List Migration) (re : Bool)
    (ledger : List String) (rep : FailureReport)
    (hnd : (pendingNames units ledger).Nodup)
    (hrep : (migrate units re ledger).report = some rep) :
    ∃ rest, pendingNames units ledger
      = rep.committedBeforeFailure ++ rep.firstBrokenName :: rest :=
  (migrate_report_spec units re ledger rep hnd hrep).2

/-- Witness for C1: units a (applies) and b (up() fails) over an empty
ledger produce the report ⟨["a"], "b"⟩, and indeed "b" immediately
follows ["a"] in the pending names. -/
theorem migrate_firstBroken_follows_committed_witness :
    ∃ rest, pendingNames [⟨"a", true, true, true⟩, ⟨"b", false, true, true⟩] []
      = ["a"] ++ "b" :: rest :=
  migrate_firstBroken_follows_committed
    [⟨"a", true, true, true⟩, ⟨"b", false, true, true⟩] false [] ⟨["a"], "b"⟩
    (by decide) (by decide)

/-- C2: for every failing `migrate` run with auto-revert enabled (the run
returns success=false rather than throwing), afterwards no name of
`committedBeforeFailure` is recorded as applied, and every name that was
recorded before the run and lies outside `committedBeforeFailure` is
still recorded as applied. -/
theorem migrate_autorevert_exact (units : List Migration) (ledger : List String)
    (rep : FailureReport)
    (hnd : (pendingNames units ledger).Nodup)
    (ht : (migrate units true ledger).threw = false)
    (hrep : (migrate units true ledger).report = some rep) :
    (∀ n ∈ rep.committedBeforeFailure, n ∉ (migrate units true ledger).ledger) ∧
    (∀ n ∈ ledger, n ∉ rep.committedBeforeFailure →
      n ∈ (migrate units true ledger).ledger) := by
  obtain ⟨hled, -⟩ := migrate_autorevert_spec units ledger rep hnd ht hrep
  obtain ⟨-, bs, hdec⟩ := migrate_report_spec units true ledger rep hnd hrep
  rw [hled]
  constructor
  · intro n hn
    apply pendingNames_not_mem units ledger
    rw [hdec]
    exact List.mem_append_left _ hn
  · intro n hn _
    exact hn

/-- Witness for C2: unit a applies and reverts, b's up() fails, prior
ledger ["z"]; after the run "a" is gone and "z" is still applied. -/
theorem migrate_autorevert_exact_witness :
    (∀ n ∈ (["a"] : List String),
      n ∉ (migrate [⟨"a", true, true, true⟩, ⟨"b", false, true, true⟩] true ["z"]).ledger) ∧
    (∀ n ∈ (["z"] : List String), n ∉ (["a"] : List String) →
      n ∈ (migrate [⟨"a", true, true, true⟩, ⟨"b", false, true, true⟩] true ["z"]).ledger) :=
  migrate_autorevert_exact [⟨"a", true, true, true⟩, ⟨"b", false, true, true⟩] ["z"]
    ⟨["a"], "b"⟩ (by decide) (by decide) (by decide)

/-- C3 counterexample: with auto-revert enabled, unit a applies but has a
broken down(), then pending unit b's up() fails; the down() rejection
during the auto-revert propagates out of `migrate`, so an input with a
failing pending up() makes `migrate` throw instead of returning false. -/
theorem migrate_can_throw_counterexample :
    (migrate [⟨"a", true, true, false⟩, ⟨"b", false, true, true⟩] true []).threw = true ∧
    (⟨"b", false, true, true⟩ : Migration)
      ∈ pendingUnits [⟨"a", true, true, false⟩, ⟨"b", false, true, true⟩] [] ∧
    (⟨"b", false, true, true⟩ : Migration).upOk = false := by decide

/-- C3 amended: when auto-revert is disabled `migrate` never throws — a
pending unit's up() (or ledger append) failure is caught locally and
success=false is returned, success=true holding exactly when every
pending unit commits; with auto-revert enabled a failing down() during
the revert does propagate out of `migrate`. -/
theorem migrate_no_autorevert_never_throws (units : List Migration) (ledger : List String) :
    (migrate units false ledger).threw = false ∧
    ((migrate units false ledger).success = true ↔
      (pendingUnits units ledger).all goodUp = true) := by
  have hok := runUp_ok (pendingUnits units ledger) ledger
  by_cases h1 : (pendingNames units ledger).length > 0
  · by_cases h2 : (pendingUnits units ledger).all goodUp = true
    · have h2' : (runUp (pendingUnits units ledger) ledger).2.2 = true := by
        rw [hok]; exact h2
      simp [migrate, h1, h2', h2]
    · have h2' : (runUp (pendingUnits units ledger) ledger).2.2 = false := by
        rw [hok]; simpa using h2
      by_cases h3 : ((pendingNames units ledger).filter
          (fun p => decide (p ∈ (runUp (pendingUnits units ledger) ledger).1))).length > 0
      · simp [migrate, h1, h2', h3, h2]
      · simp [migrate, h1, h2', h3, h2]
  · have hpu : pendingUnits units ledger = [] := by
      have hP : pendingNames units ledger = [] :=
        List.length_eq_zero.mp (by omega)
      simpa [pendingNames] using hP
    simp [migrate, h1, hpu]

/-- C4 counterexample: `revert(0, null)` throws the times-validation
error on its very first statement and never reaches
`this.sequelize.close()`, so this exit path leaves the connection
open. -/
theorem revert_invalid_skips_close_counterexample :
    (revert [] 0 none []).threw = true ∧ (revert [] 0 none []).closed = false := by
  decide

/-- C4 amended: each public operation closes the connection exactly on
its non-throwing exit paths — the close call is reached iff the
operation returns instead of throwing (`list` never throws). -/
theorem closed_iff_not_threw (units : List Migration) (ledger : List String)
    (times : Int) (name : Option String) (status : String) (re : Bool) :
    (migrate units re ledger).closed = !(migrate units re ledger).threw ∧
    (revert units times name ledger).closed = !(revert units times name ledger).threw ∧
    (reset units ledger).closed = !(reset units ledger).threw ∧
    (list units status ledger).closed = true ∧
    (list units status ledger).threw = false := by
  refine ⟨?_, ?_, ?_, ?_, ?_⟩
  · simp only [migrate]
    repeat' split
    all_goals rfl
  · simp only [revert]
    repeat' split
    all_goals rfl
  · simp only [reset]
    repeat' split
    all_goals rfl
  · simp only [list]
    repeat' split
    all_goals rfl
  · simp only [list]
    repeat' split
    all_goals rfl

/-- C9: whenever a failing `migrate` run computes a report (in
particular whenever `executedFromPending` is non-empty), the committed
set is strictly shorter than the pending list, so the lookup
`pendingMigrations[executedFromPending.length]` is in bounds. -/
theorem broken_index_in_bounds (units : List Migration) (re : Bool)
    (ledger : List String) (rep : FailureReport)
    (hnd : (pendingNames units ledger).Nodup)
    (hrep : (migrate units re ledger).report = some rep)
    (hne : rep.committedBeforeFailure ≠ []) :
    rep.committedBeforeFailure.length < (pendingNames units ledger).length := by
  obtain ⟨bs, hdec⟩ := (migrate_report_spec units re ledger rep hnd hrep).2
  rw [hdec, List.length_append]
  simp

/-- Witness for C9: in the run of units a (applies) and b (up() fails),
the committed set ["a"] is shorter than the pending list. -/
theorem broken_index_in_bounds_witness :
    (["a"] : List String).length
      < (pendingNames [⟨"a", true, true, true⟩, ⟨"b", false, true, true⟩] []).length :=
  broken_index_in_bounds [⟨"a", true, true, true⟩, ⟨"b", false, true, true⟩] false []
    ⟨["a"], "b"⟩ (by decide) (by decide) (by decide)

/-- C5 counterexample: units a and b apply and c's up() fails; with
auto-revert enabled `migrate` hands `executedFromPending` to down() as
is, so the committed set is reverted in ascending application order
["a", "b"] — not most-recent-first, which would be ["b", "a"]. -/
theorem autorevert_order_counterexample :
    (migrate [⟨"a", true, true, true⟩, ⟨"b", true, true, true⟩, ⟨"c", false, true, true⟩]
        true []).report = some ⟨["a", "b"], "c"⟩ ∧
    (migrate [⟨"a", true, true, true⟩, ⟨"b", true, true, true⟩, ⟨"c", false, true, true⟩]
        true []).reverted = ["a", "b"] ∧
    (migrate [⟨"a", true, true, true⟩, ⟨"b", true, true, true⟩, ⟨"c", false, true, true⟩]
        true []).reverted ≠ (["a", "b"] : List String).reverse := by
  decide

/-- C5 amended: revert-by-count and reset execute down() most-recent-first
(the reverse of applied order), but the auto-revert of a failed `migrate`
executes down() on `committedBeforeFailure` in ascending (application)
order. -/
theorem reversal_order_amended (units : List Migration) (ledger : List String)
    (times : Int) (rep : FailureReport)
    (hnd : (pendingNames units ledger).Nodup) :
    ((migrate units true ledger).threw = false →
      (migrate units true ledger).report = some rep →
      (migrate units true ledger).reverted = rep.committedBeforeFailure) ∧
    ((reset units ledger).threw = false →
      (reset units ledger).reverted = ledger.reverse) ∧
    (1 < times → (revert units times none ledger).threw = false →
      (revert units times none ledger).reverted = ledger.reverse.take times.toNat) := by
  refine ⟨fun ht hrep => (migrate_autorevert_spec units ledger rep hnd ht hrep).2, ?_, ?_⟩
  · intro ht
    by_cases hok : (runDown units ledger.reverse ledger).2.2 = true
    · have hrev := (runDown_of_ok units ledger.reverse ledger hok).1
      simp [reset, hok, hrev]
    · have hf : (runDown units ledger.reverse ledger).2.2 = false := by
        simpa using hok
      simp [reset, hf] at ht
  · intro h1 ht
    have hv : ¬ (times < 1 ∧ truthy (none : Option String) = false) := by
      rintro ⟨h, -⟩
      omega
    have htn : truthy (none : Option String) = false := rfl
    have hname : ¬ truthy (none : Option String) = true := by simp [truthy]
    by_cases hlen : (ledger.reverse.take times.toNat).length > 0
    · by_cases hok : (runDown units (ledger.reverse.take times.toNat) ledger).2.2 = true
      · have hrev := (runDown_of_ok units _ _ hok).1
        simp only [revert]
        rw [if_neg hv, if_neg hname, if_pos ⟨htn, h1⟩, if_pos hlen, if_pos hok]
        exact hrev
      · simp only [revert] at ht
        rw [if_neg hv, if_neg hname, if_pos ⟨htn, h1⟩, if_pos hlen, if_neg hok] at ht
        simp at ht
    · have hnil : ledger.reverse.take times.toNat = [] :=
        List.length_eq_zero.mp (by omega)
      simp only [revert]
      rw [if_neg hv, if_neg hname, if_pos ⟨htn, h1⟩, if_neg hlen]
      exact hnil.symm

/-- Witness for C5 amended, one concrete instance per conjunct: the
auto-revert of a failed run reverts exactly the committed ["a"], reset
reverts the reversed ledger, and revert-by-count reverts the reversed
clamped ledger. -/
theorem reversal_order_amended_witness :
    (migrate [⟨"a", true, true, true⟩, ⟨"b", false, true, true⟩] true []).reverted
      = ["a"] ∧
    (reset [⟨"a", true, true, true⟩] ["a"]).reverted = (["a"] : List String).reverse ∧
    (revert [⟨"a", true, true, true⟩] 3 none ["a"]).reverted
      = (["a"] : List String).reverse.take (3 : Int).toNat :=
  ⟨(reversal_order_amended [⟨"a", true, true, true⟩, ⟨"b", false, true, true⟩] [] 3
      ⟨["a"], "b"⟩ (by decide)).1 (by decide) (by decide),
   (reversal_order_amended [⟨"a", true, true, true⟩] ["a"] 3 ⟨[], ""⟩ (by decide)).2.1
      (by decide),
   (reversal_order_amended [⟨"a", true, true, true⟩] ["a"] 3 ⟨[], ""⟩ (by decide)).2.2
      (by decide) (by decide)⟩

/-- C6: a count-mode revert (no name, N > 1) with N greater than the
number of applied migrations reverts exactly applied().length migrations
and raises no error, and with zero applied migrations reports "There
isn't migrations to revert" and performs no down(). -/
theorem revert_count_clamps (units : List Migration) (times : Int) (ledger : List String)
    (h1 : 1 < times) (h2 : (ledger.length : Int) < times)
    (hd : downsOk units ledger.reverse = true) :
    (revert units times none ledger).threw = false ∧
    (revert units times none ledger).reverted.length = ledger.length ∧
    (ledger = [] → (revert units times none ledger).reverted = [] ∧
      "There isn't migrations to revert" ∈ (revert units times none ledger).log) := by
  have hv : ¬ (times < 1 ∧ truthy (none : Option String) = false) := by
    rintro ⟨h, -⟩
    omega
  have htn : truthy (none : Option String) = false := rfl
  have hname : ¬ truthy (none : Option String) = true := by simp [truthy]
  have hle : ledger.length ≤ times.toNat := le_of_lt (Int.lt_toNat.mpr h2)
  have htake : ledger.reverse.take times.toNat = ledger.reverse := by
    apply List.take_of_length_le
    rw [List.length_reverse]
    exact hle
  by_cases hl : ledger = []
  · subst hl
    have hlen : ¬ (([] : List String).reverse.take times.toNat).length > 0 := by
      simp
    simp only [revert]
    rw [if_neg hv, if_neg hname, if_pos ⟨htn, h1⟩, if_neg hlen]
    exact ⟨rfl, rfl, fun _ => ⟨rfl, by simp⟩⟩
  · have hpos : (ledger.reverse.take times.toNat).length > 0 := by
      rw [htake, List.length_reverse]
      exact List.length_pos.mpr hl
    have hok : (runDown units (ledger.reverse.take times.toNat) ledger).2.2 = true := by
      rw [htake]
      exact runDown_ok_of_downsOk units ledger.reverse hd ledger
    have hrev := (runDown_of_ok units _ _ hok).1
    simp only [revert]
    rw [if_neg hv, if_neg hname, if_pos ⟨htn, h1⟩, if_pos hpos, if_pos hok]
    refine ⟨rfl, ?_, fun h => absurd h hl⟩
    rw [hrev, htake, List.length_reverse]

/-- Witness for C6: one applied migration, N = 5: exactly one reverted,
no error. -/
theorem revert_count_clamps_witness :
    (revert [⟨"a", true, true, true⟩] 5 none ["a"]).threw = false ∧
    (revert [⟨"a", true, true, true⟩] 5 none ["a"]).reverted.length
      = (["a"] : List String).length ∧
    ((["a"] : List String) = [] →
      (revert [⟨"a", true, true, true⟩] 5 none ["a"]).reverted = [] ∧
      "There isn't migrations to revert"
        ∈ (revert [⟨"a", true, true, true⟩] 5 none ["a"]).log) :=
  revert_count_clamps [⟨"a", true, true, true⟩] 5 ["a"] (by decide) (by decide) (by decide)

/-- C7: a revert call with N < 1 and no name throws the validation error
before performing any I/O: no log line is emitted, nothing is reverted,
the ledger is untouched (and the connection is not closed, the throw
happening before the close call). -/
theorem revert_invalid_times_no_effect (units : List Migration) (times : Int)
    (ledger : List String) (h : times < 1) :
    revert units times none ledger
      = { threw := true, ledger := ledger, log := [], reverted := [], closed := false } := by
  simp [revert, truthy, h]

/-- Witness for C7: revert(0, null) over ledger ["a"] throws and leaves
everything untouched. -/
theorem revert_invalid_times_no_effect_witness :
    revert [] 0 none ["a"]
      = { threw := true, ledger := ["a"], log := [], reverted := [], closed := false } :=
  revert_invalid_times_no_effect [] 0 ["a"] (by decide)

/-- C8: Apply is idempotent — after a `migrate` run returning
success=true, a second run over the resulting ledger finds an empty
pending set, reports "No pending migrations to apply", invokes no up()
and returns success=true. -/
theorem migrate_idempotent (units : List Migration) (re re2 : Bool) (ledger : List String)
    (hs : (migrate units re ledger).success = true) :
    pendingNames units (migrate units re ledger).ledger = [] ∧
    (migrate units re2 (migrate units re ledger).ledger).success = true ∧
    (migrate units re2 (migrate units re ledger).ledger).threw = false ∧
    (migrate units re2 (migrate units re ledger).ledger).upRun = [] ∧
    "No pending migrations to apply"
      ∈ (migrate units re2 (migrate units re ledger).ledger).log := by
  have h0 := migrate_success_no_pending units re ledger hs
  have h1 := migrate_no_pending units re2 _ h0
  rw [h1]
  exact ⟨h0, rfl, rfl, rfl, by simp⟩

/-- Witness for C8: one unit applied by the first run; the second run
sees nothing pending. -/
theorem migrate_idempotent_witness :
    pendingNames [⟨"a", true, true, true⟩]
        (migrate [⟨"a", true, true, true⟩] false []).ledger = [] ∧
    (migrate [⟨"a", true, true, true⟩] true
        (migrate [⟨"a", true, true, true⟩] false []).ledger).success = true ∧
    (migrate [⟨"a", true, true, true⟩] true
        (migrate [⟨"a", true, true, true⟩] false []).ledger).threw = false ∧
    (migrate [⟨"a", true, true, true⟩] true
        (migrate [⟨"a", true, true, true⟩] false []).ledger).upRun = [] ∧
    "No pending migrations to apply"
      ∈ (migrate [⟨"a", true, true, true⟩] true
          (migrate [⟨"a", true, true, true⟩] false []).ledger).log :=
  migrate_idempotent [⟨"a", true, true, true⟩] false true [] (by decide)

/-- C10 counterexample: the empty string is a non-null name that JS
treats as absent (`!name` is true for ""), so `revert(0, "")` raises the
times-validation error while `revert(1, "")` does not: with this
non-null name the behavior does depend on `times`. -/
theorem revert_empty_name_counterexample :
    (revert [] 0 (some "") []).threw = true ∧
    (revert [] 1 (some "") []).threw = false ∧
    revert [] 0 (some "") [] ≠ revert [] 1 (some "") [] := by
  decide

/-- C10 amended: for every revert call whose name is non-empty (JS
truthy), the behavior is completely independent of the `times` argument;
in particular no validation error is ever raised, whatever `times` is. -/
theorem revert_name_ignores_times (units : List Migration) (t1 t2 : Int)
    (n : String) (ledger : List String) (hn : n ≠ "") :
    revert units t1 (some n) ledger = revert units t2 (some n) ledger := by
  have ht : truthy (some n) = true := by
    simp [truthy, hn]
  simp [revert, ht]

/-- Witness for C10 amended: revert(0, "a") and revert(7, "a") coincide. -/
theorem revert_name_ignores_times_witness :
    revert [] 0 (some "a") [] = revert [] 7 (some "a") [] :=
  revert_name_ignores_times [] 0 7 "a" [] (by decide)

end MigrationsHandler
